import Mathlib

/-!
# Fitiva — verification of the core domain logic

Shallow embedding of the Fitiva workout-planning application's domain
logic, together with proofs of the documented properties.

The repository ships the Next.js frontend (`frontend/src/...`); the Django
backend that implements the REST endpoints (`/api/recommendations/`,
`/api/schedule/generate/`, `/api/schedule/active/`,
`/api/schedule/remove-program/{id}/`) is not part of the source tree.
Backend operations are therefore modelled from the specification's
description (each such definition carries a doc comment starting
`Modelled from the spec:`); frontend logic (the edit-program builder, the
create-program form, the schedule page's week grouping) is translated
directly from the TypeScript source.

Dates are modelled as natural numbers counting days from an arbitrary
epoch; weekday names are obtained from the day count modulo 7.
-/

namespace Fitiva

/-! ## Data model -/

/-- FocusTag: the closed enumeration of training-goal categories
(spec §3, Glossary): strength, cardio, flexibility, balance. -/
inductive FocusTag where
  | strength
  | cardio
  | flexibility
  | balance
deriving DecidableEq, Repr

/-- One set within an exercise, as in the `ExerciseSet` interface of the
frontend (`set_number`, `reps : number | null`, `time : number | null`,
`rest`). -/
structure ExerciseSet where
  set_number : Nat
  reps : Option Nat
  time : Option Nat
  rest : Nat
deriving DecidableEq, Repr

/-- An exercise: a name and its ordered sets (frontend `Exercise`
interface, ignoring the optional `template_id` and the display `order`). -/
structure Exercise where
  name : String
  sets : List ExerciseSet
deriving DecidableEq, Repr

/-- One authored weekday section of a program, as in the backend's
serialized `ProgramSection` (`format` is the weekday name the section is
authored for). -/
structure ProgramSection where
  id : Nat
  format : String
  type : String
  is_rest_day : Bool
  exercises : List Exercise
deriving DecidableEq, Repr

/-- A trainer-authored program (the `Program` interface of the frontend
pages; `focus` is the program's set of focus tags). -/
structure Program where
  id : Nat
  name : String
  focus : List FocusTag
  difficulty : String
  weekly_frequency : Nat
  session_length : Nat
  sections : List ProgramSection
deriving DecidableEq, Repr

/-! ## Week grouping (schedule page, `groupEventsByWeek`) -/

/-- An entry of a calendar event's `sections` array (schedule page
`CalendarEvent.sections` / spec §4.2 step 4). -/
structure SectionEntry where
  id : Nat
  program_id : Nat
  program_name : String
  exercise_count : Nat
  focus : List FocusTag
deriving DecidableEq, Repr

/-- A derived calendar-day entry (`CalendarEvent` interface of the
schedule page; `section_type` is `"rest"` or `"workout"`). -/
structure CalendarEvent where
  date : Nat
  day : String
  sections : List SectionEntry
  section_type : String
  exercise_count : Nat
deriving DecidableEq, Repr

/-- Recursion core of `groupEventsByWeek`: walk the events with the
running index, pushing onto the current week and flushing it whenever
`(index + 1) % 7 = 0`; a non-empty trailing week is flushed at the end.
Faithful to the `forEach` loop of `groupEventsByWeek` in the schedule
page. -/
def groupGo : List CalendarEvent → Nat → List (List CalendarEvent) →
    List CalendarEvent → List (List CalendarEvent)
  | [], _, weeks, cur => if cur = [] then weeks else weeks ++ [cur]
  | e :: rest, idx, weeks, cur =>
      let cur2 := cur ++ [e]
      if (idx + 1) % 7 = 0 then groupGo rest (idx + 1) (weeks ++ [cur2]) []
      else groupGo rest (idx + 1) weeks cur2

/-- The `groupEventsByWeek` helper from the schedule page: group the calendar events
into consecutive weeks of 7. -/
def groupEventsByWeek (events : List CalendarEvent) : List (List CalendarEvent) :=
  groupGo events 0 [] []

/-- Reference chunking: split a list into consecutive chunks of 7, the
last one possibly shorter. -/
def chunks7 (l : List CalendarEvent) : List (List CalendarEvent) :=
  if h : l = [] then [] else
    l.take 7 :: chunks7 (l.drop 7)
termination_by l.length
decreasing_by
  simp only [List.length_drop]
  have : 0 < l.length := List.length_pos.mpr h
  omega

theorem chunks7_nil : chunks7 [] = [] := by
  rw [chunks7]
  simp

theorem chunks7_cons (l : List CalendarEvent) (h : l ≠ []) :
    chunks7 l = l.take 7 :: chunks7 (l.drop 7) := by
  rw [chunks7]
  simp [h]

/-- The recursion core agrees with the reference chunking, provided the
running index and the current chunk are in step (`cur.length = idx % 7`). -/
theorem groupGo_eq_chunks7 (events : List CalendarEvent) :
    ∀ (idx : Nat) (weeks : List (List CalendarEvent)) (cur : List CalendarEvent),
      cur.length = idx % 7 →
      groupGo events idx weeks cur = weeks ++ chunks7 (cur ++ events) := by
  induction events with
  | nil =>
    intro idx weeks cur hlen
    simp only [groupGo, List.append_nil]
    by_cases hcur : cur = []
    · simp [hcur, chunks7_nil]
    · have h7 : cur.length < 7 := by
        rw [hlen]; exact Nat.mod_lt _ (by omega)
      rw [chunks7_cons cur hcur]
      have htake : cur.take 7 = cur := List.take_of_length_le (by omega)
      have hdrop : cur.drop 7 = [] := List.drop_eq_nil_of_le (by omega)
      simp [hcur, htake, hdrop, chunks7_nil]
  | cons e rest ih =>
    intro idx weeks cur hlen
    have hcurlt : cur.length < 7 := by
      rw [hlen]; exact Nat.mod_lt _ (by omega)
    simp only [groupGo]
    by_cases hflush : (idx + 1) % 7 = 0
    · have hcur6 : cur.length = 6 := by omega
      rw [if_pos hflush, ih (idx + 1) (weeks ++ [cur ++ [e]]) [] (by simp [hflush])]
      have hne : cur ++ e :: rest ≠ [] := by simp
      rw [chunks7_cons _ hne]
      have hsplit : cur ++ e :: rest = (cur ++ [e]) ++ rest := by simp
      have hlen7 : (cur ++ [e]).length = 7 := by simp [hcur6]
      have htake : (cur ++ e :: rest).take 7 = cur ++ [e] := by
        rw [hsplit, List.take_append_of_le_length (by omega),
          List.take_of_length_le (by omega)]
      have hdrop : (cur ++ e :: rest).drop 7 = rest := by
        rw [hsplit, List.drop_append_of_le_length (by omega),
          List.drop_eq_nil_of_le (by omega), List.nil_append]
      rw [htake, hdrop]
      simp
    · have hstep : (cur ++ [e]).length = (idx + 1) % 7 := by
        simp only [List.length_append, List.length_cons, List.length_nil]
        omega
      rw [if_neg hflush, ih (idx + 1) weeks (cur ++ [e]) hstep]
      simp

/-- The grouping computes the reference chunking. -/
theorem groupEventsByWeek_eq_chunks7 (events : List CalendarEvent) :
    groupEventsByWeek events = chunks7 events := by
  have h := groupGo_eq_chunks7 events 0 [] [] (by simp)
  simpa [groupEventsByWeek] using h

/-- Fuel-indexed induction scheme for facts about `chunks7`. -/
theorem chunks7_join_aux :
    ∀ (n : Nat) (l : List CalendarEvent), l.length ≤ n → (chunks7 l).flatten = l := by
  intro n
  induction n with
  | zero =>
    intro l hl
    have : l = [] := List.length_eq_zero.mp (by omega)
    simp [this, chunks7_nil]
  | succ n ih =>
    intro l hl
    by_cases hnil : l = []
    · simp [hnil, chunks7_nil]
    · rw [chunks7_cons l hnil]
      have hpos : 0 < l.length := List.length_pos.mpr hnil
      have : (l.drop 7).length ≤ n := by
        simp only [List.length_drop]; omega
      simp [List.flatten, ih (l.drop 7) this]

theorem chunks7_shape_aux :
    ∀ (n : Nat) (l : List CalendarEvent), l.length ≤ n →
      ∀ w ∈ chunks7 l, w ≠ [] ∧ w.length ≤ 7 := by
  intro n
  induction n with
  | zero =>
    intro l hl w hw
    have : l = [] := List.length_eq_zero.mp (by omega)
    rw [this, chunks7_nil] at hw
    cases hw
  | succ n ih =>
    intro l hl w hw
    by_cases hnil : l = []
    · rw [hnil, chunks7_nil] at hw; cases hw
    · rw [chunks7_cons l hnil] at hw
      have hpos : 0 < l.length := List.length_pos.mpr hnil
      rcases List.mem_cons.mp hw with h | h
      · subst h
        constructor
        · intro hcon
          have hlen0 : (l.take 7).length = 0 := by rw [hcon]; rfl
          rw [List.length_take] at hlen0
          omega
        · rw [List.length_take]
          omega
      · exact ih (l.drop 7) (by simp only [List.length_drop]; omega) w h

theorem chunks7_dropLast_aux :
    ∀ (n : Nat) (l : List CalendarEvent), l.length ≤ n →
      ∀ w ∈ (chunks7 l).dropLast, w.length = 7 := by
  intro n
  induction n with
  | zero =>
    intro l hl w hw
    have : l = [] := List.length_eq_zero.mp (by omega)
    rw [this, chunks7_nil] at hw
    cases hw
  | succ n ih =>
    intro l hl w hw
    by_cases hnil : l = []
    · rw [hnil, chunks7_nil] at hw; cases hw
    · rw [chunks7_cons l hnil] at hw
      have hpos : 0 < l.length := List.length_pos.mpr hnil
      by_cases hrest : l.drop 7 = []
      · rw [hrest, chunks7_nil] at hw
        simp [List.dropLast] at hw
      · rw [chunks7_cons _ hrest] at hw
        rw [List.dropLast_cons₂] at hw
        have hlong : 7 < l.length := by
          by_contra hcon
          exact hrest (List.drop_eq_nil_of_le (by omega))
        rcases List.mem_cons.mp hw with h | h
        · subst h
          simp
          omega
        · rw [← chunks7_cons _ hrest] at h
          exact ih (l.drop 7) (by simp only [List.length_drop]; omega) w h

theorem chunks7_full_aux :
    ∀ (n : Nat) (l : List CalendarEvent), l.length ≤ n → l.length % 7 = 0 →
      ∀ w ∈ chunks7 l, w.length = 7 := by
  intro n
  induction n with
  | zero =>
    intro l hl _ w hw
    have : l = [] := List.length_eq_zero.mp (by omega)
    rw [this, chunks7_nil] at hw
    cases hw
  | succ n ih =>
    intro l hl hdvd w hw
    by_cases hnil : l = []
    · rw [hnil, chunks7_nil] at hw; cases hw
    · rw [chunks7_cons l hnil] at hw
      have hpos : 0 < l.length := List.length_pos.mpr hnil
      have hge : 7 ≤ l.length := by omega
      rcases List.mem_cons.mp hw with h | h
      · subst h
        simp
        omega
      · have h1 : (l.drop 7).length ≤ n := by simp only [List.length_drop]; omega
        have h2 : (l.drop 7).length % 7 = 0 := by simp only [List.length_drop]; omega
        exact ih (l.drop 7) h1 h2 w h

theorem chunks7_count_aux :
    ∀ (n : Nat) (l : List CalendarEvent), l.length ≤ n →
      (chunks7 l).length = (l.length + 6) / 7 := by
  intro n
  induction n with
  | zero =>
    intro l hl
    have : l = [] := List.length_eq_zero.mp (by omega)
    simp [this, chunks7_nil]
  | succ n ih =>
    intro l hl
    by_cases hnil : l = []
    · simp [hnil, chunks7_nil]
    · rw [chunks7_cons l hnil]
      have hpos : 0 < l.length := List.length_pos.mpr hnil
      rw [List.length_cons, ih (l.drop 7) (by simp only [List.length_drop]; omega)]
      simp only [List.length_drop]
      omega

/-- C9. `groupEventsByWeek` partitions its input in order into
consecutive chunks of exactly 7 events (a shorter chunk arises only at
the end, and only when the length is not a multiple of 7): concatenating
the returned weeks yields the original list, every week except possibly
the last has exactly 7 events, every week is non-empty with at most 7
events, a multiple-of-7 input yields only full weeks, and a 28-event
input yields exactly 4 weeks of 7. -/
theorem groupEventsByWeek_partition (events : List CalendarEvent) :
    (groupEventsByWeek events).flatten = events
    ∧ (∀ w ∈ (groupEventsByWeek events).dropLast, w.length = 7)
    ∧ (∀ w ∈ groupEventsByWeek events, w ≠ [] ∧ w.length ≤ 7)
    ∧ (events.length % 7 = 0 → ∀ w ∈ groupEventsByWeek events, w.length = 7)
    ∧ (events.length = 28 →
        (groupEventsByWeek events).length = 4
        ∧ ∀ w ∈ groupEventsByWeek events, w.length = 7) := by
  rw [groupEventsByWeek_eq_chunks7]
  refine ⟨chunks7_join_aux events.length events le_rfl,
    chunks7_dropLast_aux events.length events le_rfl,
    chunks7_shape_aux events.length events le_rfl,
    chunks7_full_aux events.length events le_rfl,
    fun h28 => ⟨?_, chunks7_full_aux events.length events le_rfl (by omega)⟩⟩
  rw [chunks7_count_aux events.length events le_rfl, h28]

/-- A concrete 28-day event list used to witness the grouping theorem. -/
def events28 : List CalendarEvent :=
  (List.range 28).map fun i =>
    { date := i, day := "", sections := [], section_type := "rest", exercise_count := 0 }

/-- Witness for C9 at a concrete 28-event input. -/
theorem groupEventsByWeek_partition_witness :
    (groupEventsByWeek events28).flatten = events28
    ∧ (groupEventsByWeek events28).length = 4 :=
  ⟨(groupEventsByWeek_partition events28).1,
    ((groupEventsByWeek_partition events28).2.2.2.2 (by decide)).1⟩

/-! ## The edit-program builder (edit-program page)

State of the weekly-schedule builder: one `DaySection` per weekday.  The
operations below are the pure state transitions of the page's handlers
(`toggleRestDay`, `confirmRestDay`, `completeExerciseConfig`,
`removeExercise`, `handleDrop`, `updateDayDescription`).  Handlers read
`daySections[index]` for an index of a rendered day card and drag indices
of rendered exercise rows, so out-of-range indices cannot arise in the
page; they are modelled as no-ops. -/

/-- A day card of the edit-program builder (`DaySection` interface). -/
structure DaySection where
  format : String
  type : String
  is_rest_day : Bool
  exercises : List Exercise
deriving DecidableEq, Repr

/-- The `DAYS_OF_WEEK` constant from the edit-program page. -/
def DAYS_OF_WEEK : List String :=
  ["Monday", "Tuesday", "Wednesday", "Thursday", "Friday", "Saturday", "Sunday"]

/-- The initial builder state: 7 non-rest days with no exercises
(the `useState` initializer of `daySections`). -/
def initialDays : List DaySection :=
  DAYS_OF_WEEK.map fun day =>
    { format := day, type := "", is_rest_day := false, exercises := [] }

/-- The `updateDayDescription` handler: set a day's free-text description, rejecting
strings longer than 30 characters. -/
def updateDayDescription (days : List DaySection) (i : Nat) (desc : String) :
    List DaySection :=
  if 30 < desc.length then days else
    match days[i]? with
    | none => days
    | some day => days.set i { day with type := desc }

/-- The `toggleRestDay` handler: flip a day's rest flag; a day that still has
exercises is not changed immediately (the page opens a confirmation
modal instead, see `confirmRestDay`). -/
def toggleRestDay (days : List DaySection) (i : Nat) : List DaySection :=
  match days[i]? with
  | none => days
  | some day =>
      if day.is_rest_day = false ∧ day.exercises ≠ [] then days
      else days.set i { day with is_rest_day := !day.is_rest_day }

/-- The `confirmRestDay` handler: mark the pending day as a rest day and remove all
its exercises. -/
def confirmRestDay (days : List DaySection) (i : Nat) : List DaySection :=
  match days[i]? with
  | none => days
  | some day => days.set i { day with is_rest_day := true, exercises := [] }

/-- The `completeExerciseConfig` handler: append the configured exercise to the
current day and clear its rest flag. -/
def completeExerciseConfig (days : List DaySection) (i : Nat) (ex : Exercise) :
    List DaySection :=
  match days[i]? with
  | none => days
  | some day =>
      days.set i { day with exercises := day.exercises ++ [ex], is_rest_day := false }

/-- The `removeExercise` handler: drop the exercise at index `j` of day `i` (the
page filters by index, which removes exactly that element). -/
def removeExercise (days : List DaySection) (i j : Nat) : List DaySection :=
  match days[i]? with
  | none => days
  | some day => days.set i { day with exercises := day.exercises.eraseIdx j }

/-- The `handleDrop` handler: complete a drag-and-drop.  If nothing is dragged or the
drag started in a different day, the state is unchanged; otherwise the
dragged exercise is removed from its position and re-inserted at the
target index (the two `splice` calls; JavaScript's `splice` clamps an
insertion position to the array length, hence the `min`). -/
def handleDrop (dragged : Option (Nat × Nat)) (days : List DaySection)
    (dayIndex targetIdx : Nat) : List DaySection :=
  match dragged with
  | none => days
  | some (dIdx, eIdx) =>
      if dIdx ≠ dayIndex then days
      else
        match days[dayIndex]? with
        | none => days
        | some day =>
            match day.exercises[eIdx]? with
            | none => days
            | some moved =>
                let remaining := day.exercises.eraseIdx eIdx
                days.set dayIndex
                  { day with
                    exercises := remaining.insertIdx (min targetIdx remaining.length) moved }

/-- One builder interaction. -/
inductive BuilderOp where
  | describeDay (i : Nat) (desc : String)
  | toggleRest (i : Nat)
  | confirmRest (i : Nat)
  | addExercise (i : Nat) (ex : Exercise)
  | removeEx (i j : Nat)
  | dropExercise (dragged : Option (Nat × Nat)) (dayIndex targetIdx : Nat)

/-- Apply one builder interaction to the builder state. -/
def applyOp (days : List DaySection) : BuilderOp → List DaySection
  | .describeDay i desc => updateDayDescription days i desc
  | .toggleRest i => toggleRestDay days i
  | .confirmRest i => confirmRestDay days i
  | .addExercise i ex => completeExerciseConfig days i ex
  | .removeEx i j => removeExercise days i j
  | .dropExercise dragged dayIdx tIdx => handleDrop dragged days dayIdx tIdx

/-- The rest-day invariant of the builder state: a day flagged as a rest
day holds no exercises. -/
def restDayInv (days : List DaySection) : Prop :=
  ∀ d ∈ days, d.is_rest_day = true → d.exercises = []

theorem restDayInv_set (days : List DaySection) (i : Nat) (v : DaySection)
    (hv : v.is_rest_day = true → v.exercises = [])
    (hinv : restDayInv days) : restDayInv (days.set i v) := by
  intro d hd htrue
  rcases List.mem_or_eq_of_mem_set hd with h | h
  · exact hinv d h htrue
  · subst h
    exact hv htrue

theorem restDayInv_applyOp (days : List DaySection) (op : BuilderOp)
    (hinv : restDayInv days) : restDayInv (applyOp days op) := by
  cases op with
  | describeDay i desc =>
    simp only [applyOp, updateDayDescription]
    by_cases hlen : 30 < desc.length
    · rw [if_pos hlen]; exact hinv
    · rw [if_neg hlen]
      cases hday : days[i]? with
      | none => exact hinv
      | some day =>
        dsimp only
        have hmem : day ∈ days := List.getElem?_mem hday
        exact restDayInv_set days i _ (fun h => hinv day hmem h) hinv
  | toggleRest i =>
    simp only [applyOp, toggleRestDay]
    cases hday : days[i]? with
    | none => exact hinv
    | some day =>
      dsimp only
      have hmem : day ∈ days := List.getElem?_mem hday
      by_cases hc : day.is_rest_day = false ∧ day.exercises ≠ []
      · rw [if_pos hc]; exact hinv
      · rw [if_neg hc]
        refine restDayInv_set days i _ ?_ hinv
        intro htrue
        have hfalse : day.is_rest_day = false := by
          cases hb : day.is_rest_day
          · rfl
          · rw [hb] at htrue
            simp at htrue
        by_contra hne
        exact hc ⟨hfalse, hne⟩
  | confirmRest i =>
    simp only [applyOp, confirmRestDay]
    cases hday : days[i]? with
    | none => exact hinv
    | some day =>
      dsimp only
      exact restDayInv_set days i _ (fun _ => rfl) hinv
  | addExercise i ex =>
    simp only [applyOp, completeExerciseConfig]
    cases hday : days[i]? with
    | none => exact hinv
    | some day =>
      dsimp only
      refine restDayInv_set days i _ ?_ hinv
      intro h
      exact absurd h (by simp)
  | removeEx i j =>
    simp only [applyOp, removeExercise]
    cases hday : days[i]? with
    | none => exact hinv
    | some day =>
      dsimp only
      have hmem : day ∈ days := List.getElem?_mem hday
      refine restDayInv_set days i _ ?_ hinv
      intro htrue
      have hex : day.exercises = [] := hinv day hmem htrue
      simp [hex]
  | dropExercise dragged dayIdx tIdx =>
    simp only [applyOp, handleDrop]
    cases dragged with
    | none => exact hinv
    | some pr =>
      obtain ⟨dIdx, eIdx⟩ := pr
      dsimp only
      by_cases hne : dIdx ≠ dayIdx
      · rw [if_pos hne]; exact hinv
      · rw [if_neg hne]
        cases hday : days[dayIdx]? with
        | none => exact hinv
        | some day =>
          dsimp only
          cases hget : day.exercises[eIdx]? with
          | none => exact hinv
          | some moved =>
            dsimp only
            have hmem : day ∈ days := List.getElem?_mem hday
            refine restDayInv_set days dayIdx _ ?_ hinv
            intro htrue
            have hex : day.exercises = [] := hinv day hmem htrue
            rw [hex] at hget
            simp at hget

/-! ## Submitting a program from the builder (edit-program `handleSubmit`) -/

/-- An exercise as serialized by `handleSubmit`. -/
structure ExercisePayload where
  name : String
  order : Nat
  sets : List ExerciseSet
deriving DecidableEq, Repr

/-- A section as serialized by `handleSubmit` (`is_rest_day` is recomputed
as `section.exercises.length === 0 || section.is_rest_day`). -/
structure SectionPayload where
  format : String
  type : String
  is_rest_day : Bool
  order : Nat
  exercises : List ExercisePayload
deriving DecidableEq, Repr

/-- The update payload `programData` built by `handleSubmit`. -/
structure ProgramData where
  name : String
  description : String
  focus : List String
  difficulty : String
  weekly_frequency : Nat
  session_length : Nat
  sections : List SectionPayload
deriving DecidableEq, Repr

/-- The `getWorkoutSummary` helper: the pair `(workoutDays, restDays)`, where
`workoutDays` counts the days with at least one exercise and
`restDays = 7 - workoutDays`. -/
def getWorkoutSummary (days : List DaySection) : Nat × Nat :=
  let workoutDays := (days.filter fun day => 0 < day.exercises.length).length
  (workoutDays, 7 - workoutDays)

/-- The `programData` object constructed by the edit page's
`handleSubmit`: `weekly_frequency` is set from `getWorkoutSummary`, and
each section's `is_rest_day` is recomputed on the way out. -/
def programData (nm ds : String) (foc : List String) (diff : String)
    (sess : Nat) (days : List DaySection) : ProgramData :=
  { name := nm
    description := ds
    focus := foc
    difficulty := diff
    weekly_frequency := (getWorkoutSummary days).1
    session_length := sess
    sections := days.mapIdx fun index s =>
      { format := s.format
        type := s.type
        is_rest_day := decide (s.exercises.length = 0) || s.is_rest_day
        order := index
        exercises := s.exercises.mapIdx fun exIndex e =>
          { name := e.name, order := exIndex, sets := e.sets } } }

theorem programData_restDay (nm ds : String) (foc : List String) (diff : String)
    (sess : Nat) (days : List DaySection) (hinv : restDayInv days) :
    ∀ sec ∈ (programData nm ds foc diff sess days).sections,
      sec.is_rest_day = true → sec.exercises = [] := by
  intro sec hsec
  simp only [programData] at hsec
  rw [List.mem_mapIdx] at hsec
  obtain ⟨i, hi, heq⟩ := hsec
  subst heq
  intro htrue
  simp only at htrue
  rcases Bool.or_eq_true_iff.mp htrue with h | h
  · have hlen : days[i].exercises.length = 0 := of_decide_eq_true h
    have hnil : days[i].exercises = [] := List.length_eq_zero.mp hlen
    simp [hnil]
  · have hmem : days[i] ∈ days := List.getElem_mem hi
    have hnil : days[i].exercises = [] := hinv _ hmem h
    simp [hnil]

/-- C7. A section flagged as a rest day never carries exercises: the
invariant holds in the initial builder state, is preserved by every
builder interaction, and every section written out by `handleSubmit`
from an invariant-respecting state has an empty exercise list whenever
its `is_rest_day` flag is set. -/
theorem restDay_write_invariant :
    restDayInv initialDays
    ∧ (∀ days op, restDayInv days → restDayInv (applyOp days op))
    ∧ (∀ nm ds foc diff sess days, restDayInv days →
        ∀ sec ∈ (programData nm ds foc diff sess days).sections,
          sec.is_rest_day = true → sec.exercises = []) :=
  ⟨by
    show ∀ d ∈ initialDays, d.is_rest_day = true → d.exercises = []
    decide,
   restDayInv_applyOp,
   programData_restDay⟩

/-- Witness for C7: the submitted sections of a state reached from the
initial state by marking Wednesday as a rest day all satisfy the
invariant. -/
theorem restDay_write_invariant_witness :
    ((programData "P" "d" ["strength"] "beginner" 45
        (applyOp initialDays (BuilderOp.confirmRest 2))).sections.all
      fun sec => !sec.is_rest_day || decide (sec.exercises = [])) = true := by
  have h := restDay_write_invariant
  have h3 := h.2.2 "P" "d" ["strength"] "beginner" 45
    (applyOp initialDays (BuilderOp.confirmRest 2))
    (h.2.1 initialDays (BuilderOp.confirmRest 2) h.1)
  rw [List.all_eq_true]
  intro sec hsec
  cases hrest : sec.is_rest_day
  · simp
  · simp [h3 sec hsec hrest]

/-! ## Drag-and-drop reordering (C10) -/

/-- C10. A drop that started in a different day than the drop target
leaves the whole builder state unchanged; a drop within one day leaves
every other day untouched and replaces that day's exercise list by a
permutation of itself in which the dragged exercise sits at the target
index (all other day fields unchanged). -/
theorem handleDrop_frame (days : List DaySection) (dIdx eIdx dayIdx tIdx : Nat) :
    (dIdx ≠ dayIdx → handleDrop (some (dIdx, eIdx)) days dayIdx tIdx = days)
    ∧ (∀ day, days[dayIdx]? = some day →
        eIdx < day.exercises.length → tIdx < day.exercises.length →
        (∀ k, k ≠ dayIdx →
          (handleDrop (some (dayIdx, eIdx)) days dayIdx tIdx)[k]? = days[k]?)
        ∧ ∃ day', (handleDrop (some (dayIdx, eIdx)) days dayIdx tIdx)[dayIdx]? = some day'
            ∧ day'.format = day.format
            ∧ day'.type = day.type
            ∧ day'.is_rest_day = day.is_rest_day
            ∧ day'.exercises.Perm day.exercises
            ∧ day'.exercises[tIdx]? = day.exercises[eIdx]?) := by
  constructor
  · intro hne
    simp only [handleDrop]
    rw [if_pos hne]
  · intro day hday hE hT
    have hlen : dayIdx < days.length := (List.getElem?_eq_some_iff.mp hday).1
    have hmoved : day.exercises[eIdx]? = some day.exercises[eIdx] :=
      List.getElem?_eq_getElem hE
    have hresult : handleDrop (some (dayIdx, eIdx)) days dayIdx tIdx =
        days.set dayIdx
          { day with
            exercises := (day.exercises.eraseIdx eIdx).insertIdx
              (min tIdx (day.exercises.eraseIdx eIdx).length) day.exercises[eIdx] } := by
      simp only [handleDrop]
      rw [if_neg (by simp), hday]
      dsimp only
      rw [hmoved]
    have herase : (day.exercises.eraseIdx eIdx).length = day.exercises.length - 1 :=
      List.length_eraseIdx_of_lt hE
    have hmin : min tIdx (day.exercises.eraseIdx eIdx).length = tIdx := by
      rw [herase]
      omega
    rw [hresult, hmin]
    set newExs : List Exercise :=
      (day.exercises.eraseIdx eIdx).insertIdx tIdx day.exercises[eIdx] with hnew
    constructor
    · intro k hk
      exact List.getElem?_set_ne (fun h => hk h.symm)
    · refine ⟨{ day with exercises := newExs }, ?_, rfl, rfl, rfl, ?_, ?_⟩
      · exact List.getElem?_set_eq_of_lt _ hlen
      · have htle : tIdx ≤ (day.exercises.eraseIdx eIdx).length := by omega
        have h1 : newExs.Perm (day.exercises[eIdx] :: day.exercises.eraseIdx eIdx) :=
          List.perm_insertIdx _ _ htle
        have hdecomp : day.exercises =
            day.exercises.take eIdx ++ day.exercises[eIdx] :: day.exercises.drop (eIdx + 1) := by
          conv_lhs => rw [← List.take_append_drop eIdx day.exercises]
          rw [List.getElem_cons_drop]
        have h2 : day.exercises.Perm
            (day.exercises[eIdx] :: (day.exercises.take eIdx ++ day.exercises.drop (eIdx + 1))) := by
          conv_lhs => rw [hdecomp]
          exact List.perm_middle
        rw [List.eraseIdx_eq_take_drop_succ] at h1
        exact h1.trans h2.symm
      · rw [hmoved]
        have htle : tIdx ≤ (day.exercises.eraseIdx eIdx).length := by omega
        have hlt : tIdx < newExs.length := by
          rw [hnew, List.length_insertIdx _ _ htle]
          omega
        rw [List.getElem?_eq_getElem hlt]
        exact congrArg some (List.getElem_insertIdx_self _ _ _ htle)

/-- Sample exercises and builder state for the drag-and-drop witness. -/
def day0 : DaySection :=
  { format := "Monday", type := "", is_rest_day := false,
    exercises :=
      [{ name := "Pushups", sets := [] },
       { name := "Squats", sets := [] },
       { name := "Plank", sets := [] }] }

def day1 : DaySection :=
  { format := "Tuesday", type := "", is_rest_day := true, exercises := [] }

def exDays : List DaySection := [day0, day1]

/-- Witness for C10: a cross-day drop leaves the sample state unchanged,
and a same-day drop leaves the other day untouched. -/
theorem handleDrop_frame_witness :
    handleDrop (some (1, 0)) exDays 0 0 = exDays
    ∧ (handleDrop (some (0, 2)) exDays 0 0)[1]? = exDays[1]? := by
  refine ⟨(handleDrop_frame exDays 1 0 0 0).1 (by decide), ?_⟩
  exact ((handleDrop_frame exDays 0 2 0 0).2 day0 rfl (by decide) (by decide)).1 1 (by decide)

/-! ## The create-program form (`create-program/page.tsx`)

In the create flow, `weeklyFrequency` is an independent number input
(`useState<number>(3)`, bound to the "Weekly Frequency (days)" field) and
is sent verbatim as `weekly_frequency`; it is not derived from the
sections. -/

/-- A set in the create-program form (`reps?`, `time?`, `rest`). -/
structure CreateSet where
  reps : Option Nat
  time : Option Nat
  rest : Nat
deriving DecidableEq, Repr

/-- An exercise in the create-program form. -/
structure CreateExercise where
  name : String
  sets : List CreateSet
deriving DecidableEq, Repr

/-- A section in the create-program form (`id` is a client-side string). -/
structure CreateSection where
  id : String
  format : String
  type : String
  exercises : List CreateExercise
deriving DecidableEq, Repr

/-- The create-program form state relevant to saving. -/
structure CreateProgramState where
  programName : String
  programDescription : String
  programFocus : String
  programDifficulty : String
  weeklyFrequency : Nat
  sessionLength : Nat
  isSubscription : Bool
  sections : List CreateSection
deriving DecidableEq, Repr

/-- Whitespace test used by trimming (space, tab, newline, carriage
return — the characters relevant to form input). -/
def isWS (c : Char) : Bool :=
  c = ' ' || c = '\t' || c = '\n' || c = '\r'

/-- Executable model of `String.prototype.trim` (drop leading and
trailing whitespace), defined over the string's character list. -/
def strTrim (s : String) : String :=
  String.mk (((s.data.dropWhile isWS).reverse.dropWhile isWS).reverse)

/-- The `canSaveProgram` predicate from the create-program page: name, focus and
difficulty must be non-empty, `weeklyFrequency ≥ 1`, `sessionLength ≥ 15`,
and there must be at least one section, each with at least one
exercise. -/
def canSaveProgram (st : CreateProgramState) : Bool :=
  !(strTrim st.programName == "")
  && !(st.programFocus == "")
  && !(st.programDifficulty == "")
  && decide (1 ≤ st.weeklyFrequency)
  && decide (15 ≤ st.sessionLength)
  && !(st.sections.isEmpty)
  && st.sections.all fun s => decide (0 < s.exercises.length)

/-- An exercise as serialized in the create payload. -/
structure CreateExercisePayload where
  name : String
  sets : List ExerciseSet
deriving DecidableEq, Repr

/-- A section as serialized in the create payload (no `is_rest_day`
field is sent by the create flow). -/
structure CreateSectionPayload where
  format : String
  type : String
  exercises : List CreateExercisePayload
deriving DecidableEq, Repr

/-- The POST body built by `handleFinalSave`. -/
structure CreatePayload where
  name : String
  description : String
  focus : String
  difficulty : String
  weekly_frequency : Nat
  session_length : Nat
  is_subscription : Bool
  sections : List CreateSectionPayload
deriving DecidableEq, Repr

/-- JavaScript's `x || null` on an optional number: `0` and `undefined`
both become `null`. -/
def orNull (x : Option Nat) : Option Nat :=
  match x with
  | none => none
  | some v => if v = 0 then none else some v

/-- The payload constructed by `handleFinalSave`: `weekly_frequency` is
taken directly from the author-set `weeklyFrequency` state. -/
def createPayload (st : CreateProgramState) : CreatePayload :=
  { name := st.programName
    description := st.programDescription
    focus := st.programFocus
    difficulty := st.programDifficulty
    weekly_frequency := st.weeklyFrequency
    session_length := st.sessionLength
    is_subscription := st.isSubscription
    sections := st.sections.map fun s =>
      { format := s.format
        type := s.type
        exercises := s.exercises.map fun e =>
          { name := e.name
            sets := e.sets.mapIdx fun index sc =>
              { set_number := index + 1
                reps := orNull sc.reps
                time := orNull sc.time
                rest := sc.rest } } } }

/-- A saveable create-form state whose author-set weekly frequency (7)
differs from its single section with exercises. -/
def overstatedState : CreateProgramState :=
  { programName := "Full Body Blast"
    programDescription := ""
    programFocus := "strength"
    programDifficulty := "beginner"
    weeklyFrequency := 7
    sessionLength := 60
    isSubscription := false
    sections :=
      [{ id := "1", format := "Day 1", type := "Working Sets",
         exercises := [{ name := "Pushups", sets := [{ reps := some 10, time := none, rest := 60 }] }] }] }

/-- C8 counterexample: the create flow saves a program whose
`weekly_frequency` (7) differs from the number of its sections that
contain at least one exercise (1), so `weeklyFrequency` is not derived
from the section contents at every write. -/
theorem weeklyFrequency_counterexample :
    canSaveProgram overstatedState = true
    ∧ (createPayload overstatedState).weekly_frequency ≠
        ((createPayload overstatedState).sections.countP
          fun s => !s.exercises.isEmpty) := by
  constructor
  · decide
  · decide

theorem countP_mapIdx {α β : Type} :
    ∀ (l : List α) (f : Nat → α → β) (p : β → Bool) (q : α → Bool),
      (∀ i a, p (f i a) = q a) → (l.mapIdx f).countP p = l.countP q := by
  intro l
  induction l with
  | nil =>
    intro f p q h
    simp
  | cons a t ih =>
    intro f p q h
    rw [List.mapIdx_cons, List.countP_cons, List.countP_cons, h 0 a,
      ih _ p q fun i b => h (i + 1) b]

/-- C8 amended. In the edit flow, the submitted `weekly_frequency` always
equals the number of submitted sections containing at least one exercise;
in the create flow, `weekly_frequency` is an author-set value that a
saveable state can set inconsistently with the section contents. -/
theorem weeklyFrequency_amended :
    (∀ nm ds foc diff sess days,
      ((programData nm ds foc diff sess days).sections.countP
          fun s => !s.exercises.isEmpty) =
        (programData nm ds foc diff sess days).weekly_frequency)
    ∧ (∃ st : CreateProgramState, canSaveProgram st = true ∧
        (createPayload st).weekly_frequency ≠
          ((createPayload st).sections.countP fun s => !s.exercises.isEmpty)) := by
  constructor
  · intro nm ds foc diff sess days
    simp only [programData, getWorkoutSummary]
    rw [countP_mapIdx days _ _ (fun d => decide (0 < d.exercises.length)) ?h,
      List.countP_eq_length_filter]
    case h =>
      intro i d
      cases hex : d.exercises with
      | nil => simp [hex]
      | cons e t => simp [hex, List.mapIdx_cons]
  · exact ⟨overstatedState, by decide, by decide⟩

/-! ## Recommendation matcher (backend, modelled from the spec) -/

/-- Modelled from the spec: a user's FitnessProfile (§3) — only the
`focuses` set matters to the recommendation matcher. -/
structure FitnessProfile where
  focuses : List FocusTag
deriving DecidableEq, Repr

/-- The response shape of `GET /api/recommendations/`
(`RecommendationsResponse` interface of the recommendations page;
`message` is optional). -/
structure RecommendationsResponse where
  user_focuses : List FocusTag
  total_recommendations : Nat
  programs : List Program
  message : Option String
deriving DecidableEq, Repr

/-- Modelled from the spec: the human-readable guidance returned when the
profile is missing or has no focuses (§4.1). -/
def completeProfileMessage : String :=
  "Please complete your fitness profile to get personalized recommendations"

/-- Modelled from the spec: `recommend(user)` (§4.1); the Django view is
not in the source tree.  A missing profile, or a profile with an empty
focus set, yields the normal "complete your profile" variant with
`total = 0`; otherwise the catalog is filtered by non-empty intersection
of focus sets, in store order, with no further ranking. -/
def recommend (profile : Option FitnessProfile) (catalog : List Program) :
    RecommendationsResponse :=
  match profile with
  | none =>
      { user_focuses := [], total_recommendations := 0, programs := [],
        message := some completeProfileMessage }
  | some p =>
      if p.focuses.isEmpty then
        { user_focuses := [], total_recommendations := 0, programs := [],
          message := some completeProfileMessage }
      else
        let matching := catalog.filter fun q => q.focus.any fun f => f ∈ p.focuses
        { user_focuses := p.focuses, total_recommendations := matching.length,
          programs := matching, message := none }

/-- C1. For a profile with a non-empty focus set, a program appears in
`recommend` exactly when it is in the catalog and its focus set meets the
profile's, and `total_recommendations` counts exactly those programs. -/
theorem recommend_focus_intersection (p : FitnessProfile) (catalog : List Program)
    (hfoc : p.focuses ≠ []) :
    (∀ q, q ∈ (recommend (some p) catalog).programs ↔
        q ∈ catalog ∧ ∃ f ∈ q.focus, f ∈ p.focuses)
    ∧ (recommend (some p) catalog).total_recommendations =
        catalog.countP fun q => decide (∃ f ∈ q.focus, f ∈ p.focuses) := by
  have hne : p.focuses.isEmpty = false := by
    cases hf : p.focuses with
    | nil => exact absurd hf hfoc
    | cons a t => rfl
  constructor
  · intro q
    simp [recommend, hne, List.mem_filter, List.any_eq_true]
  · simp only [recommend, hne, Bool.false_eq_true, if_false]
    rw [List.countP_eq_length_filter]
    congr 1
    apply List.filter_congr
    intro q _
    rw [Bool.eq_iff_iff]
    simp [List.any_eq_true]

/-- Example catalog from the spec's test scenario (§8): three programs
with focus sets strength+cardio, flexibility, balance+strength. -/
def progSC : Program :=
  { id := 1, name := "A", focus := [.strength, .cardio], difficulty := "beginner",
    weekly_frequency := 3, session_length := 45, sections := [] }

def progF : Program :=
  { id := 2, name := "B", focus := [.flexibility], difficulty := "beginner",
    weekly_frequency := 3, session_length := 45, sections := [] }

def progBS : Program :=
  { id := 3, name := "C", focus := [.balance, .strength], difficulty := "beginner",
    weekly_frequency := 3, session_length := 45, sections := [] }

def exCatalog : List Program := [progSC, progF, progBS]

def exProfile : FitnessProfile := { focuses := [.strength] }

/-- Witness for C1 at the spec's example scenario: a strength profile
against the three-program catalog gets exactly 2 recommendations. -/
theorem recommend_focus_intersection_witness :
    (recommend (some exProfile) exCatalog).total_recommendations = 2 := by
  have h := recommend_focus_intersection exProfile exCatalog (by decide)
  rw [h.2]
  decide

/-- C4. A missing profile and an empty focus set both produce the normal
`total = 0` variant with a non-empty message; a non-empty focus set with
no matching programs produces `total = 0`, an empty program list and no
message. -/
theorem recommend_incomplete_profile :
    (∀ catalog, (recommend none catalog).total_recommendations = 0
      ∧ ∃ m, (recommend none catalog).message = some m ∧ m ≠ "")
    ∧ (∀ p catalog, p.focuses = [] →
        (recommend (some p) catalog).total_recommendations = 0
        ∧ ∃ m, (recommend (some p) catalog).message = some m ∧ m ≠ "")
    ∧ (∀ (p : FitnessProfile) catalog, p.focuses ≠ [] →
        (∀ q ∈ catalog, ¬ ∃ f ∈ q.focus, f ∈ p.focuses) →
        (recommend (some p) catalog).total_recommendations = 0
        ∧ (recommend (some p) catalog).programs = []
        ∧ (recommend (some p) catalog).message = none) := by
  refine ⟨fun catalog => ⟨rfl, completeProfileMessage, rfl, by decide⟩, ?_, ?_⟩
  · intro p catalog hemp
    have : p.focuses.isEmpty = true := by rw [hemp]; rfl
    refine ⟨?_, completeProfileMessage, ?_, by decide⟩
    · simp [recommend, this]
    · simp [recommend, this]
  · intro p catalog hfoc hnone
    have hne : p.focuses.isEmpty = false := by
      cases hf : p.focuses with
      | nil => exact absurd hf hfoc
      | cons a t => rfl
    have hfil : catalog.filter (fun q => q.focus.any fun f => f ∈ p.focuses) = [] := by
      rw [List.filter_eq_nil_iff]
      intro q hq
      have := hnone q hq
      simp only [List.any_eq_true]
      simp only [not_exists, not_and] at this ⊢
      intro f hf
      have hnot := this f hf
      simp [hnot]
    refine ⟨?_, ?_, ?_⟩ <;> simp [recommend, hne, hfil]

/-- Witness for C4: a strength-only profile against a catalog holding
only the flexibility program gets no matches, no message. -/
theorem recommend_incomplete_profile_witness :
    (recommend none exCatalog).total_recommendations = 0
    ∧ (recommend (some { focuses := [] }) exCatalog).total_recommendations = 0
    ∧ (recommend (some exProfile) [progF]).programs = []
    ∧ (recommend (some exProfile) [progF]).message = none := by
  have h := recommend_incomplete_profile
  have h3 := h.2.2 exProfile [progF] (by decide) (by decide)
  exact ⟨(h.1 exCatalog).1, (h.2.1 { focuses := [] } exCatalog rfl).1, h3.2.1, h3.2.2⟩

/-! ## Schedule state machine (backend, modelled from the spec §4.2) -/

/-- Modelled from the spec: a user's Schedule row (§3): referenced
program ids, a start date, the rest-day names supplied at generation
time, and the active flag. -/
structure Schedule where
  programs : List Nat
  start_date : Nat
  rest_days : List String
  is_active : Bool
deriving DecidableEq, Repr

/-- The user's schedule rows in the store; the active schedule is the
first row with `is_active`. -/
def activeOf (rows : List Schedule) : Option Schedule :=
  rows.find? fun s => s.is_active

/-- Modelled from the spec: add a program id to a schedule's program set,
idempotent when already present (§4.2 `generate` on `ActiveSchedule`). -/
def addProgram (s : Schedule) (pid : Nat) : Schedule :=
  if pid ∈ s.programs then s else { s with programs := s.programs ++ [pid] }

/-- Update the first active row in place. -/
def updateFirstActive : List Schedule → Nat → List Schedule
  | [], _ => []
  | s :: rows, pid =>
      if s.is_active then addProgram s pid :: rows
      else s :: updateFirstActive rows pid

/-- Modelled from the spec: `generate(user, programId, restDayNames)`
(§4.2 transitions); the Django view is not in the source tree.  With an
active schedule the program id is added to its set; with none a fresh
active schedule starting today is created. -/
def generate (rows : List Schedule) (pid today : Nat) (restDays : List String) :
    List Schedule :=
  if rows.any fun s => s.is_active then updateFirstActive rows pid
  else rows ++ [{ programs := [pid], start_date := today,
                  rest_days := restDays, is_active := true }]

/-- Modelled from the spec: remove a program id from a schedule; an
emptied program set deactivates the schedule (returns `none`). -/
def removeFromSchedule (s : Schedule) (pid : Nat) : Option Schedule :=
  let ps := s.programs.filter fun q => q ≠ pid
  if ps.isEmpty then none else some { s with programs := ps }

/-- Modelled from the spec: `removeProgram(user, id)` (§4.2); the Django
view is not in the source tree.  The first active row loses the program
id; if its set empties, the row is dropped (`NoSchedule`). -/
def removeProgram : List Schedule → Nat → List Schedule
  | [], _ => []
  | s :: rows, pid =>
      if s.is_active then
        match removeFromSchedule s pid with
        | none => rows
        | some s2 => s2 :: rows
      else s :: removeProgram rows pid

theorem addProgram_is_active (s : Schedule) (pid : Nat) :
    (addProgram s pid).is_active = s.is_active := by
  unfold addProgram
  split <;> rfl

theorem length_updateFirstActive (rows : List Schedule) (pid : Nat) :
    (updateFirstActive rows pid).length = rows.length := by
  induction rows with
  | nil => rfl
  | cons r t ih =>
    simp only [updateFirstActive]
    split <;> simp [ih]

theorem activeOf_updateFirstActive (rows : List Schedule) (pid : Nat) (s : Schedule)
    (h : activeOf rows = some s) :
    activeOf (updateFirstActive rows pid) = some (addProgram s pid) := by
  induction rows with
  | nil => simp [activeOf] at h
  | cons r t ih =>
    simp only [updateFirstActive]
    by_cases hr : r.is_active = true
    · rw [if_pos hr]
      have hs : r = s := by
        have := h
        unfold activeOf at this
        rw [List.find?_cons_of_pos _ hr] at this
        exact Option.some.inj this
      subst hs
      unfold activeOf
      rw [List.find?_cons_of_pos]
      rw [addProgram_is_active]
      exact hr
    · rw [if_neg hr]
      have ht : activeOf t = some s := by
        have := h
        unfold activeOf at this
        rwa [List.find?_cons_of_neg _ (by simpa using hr)] at this
      unfold activeOf
      rw [List.find?_cons_of_neg _ (by simpa using hr)]
      exact ih ht

theorem countP_updateFirstActive (rows : List Schedule) (pid : Nat) :
    (updateFirstActive rows pid).countP (fun s => s.is_active) =
      rows.countP (fun s => s.is_active) := by
  induction rows with
  | nil => rfl
  | cons r t ih =>
    simp only [updateFirstActive]
    by_cases hr : r.is_active = true
    · rw [if_pos hr, List.countP_cons, List.countP_cons, addProgram_is_active]
    · rw [if_neg hr, List.countP_cons, List.countP_cons, ih]

theorem countP_generate_le (rows : List Schedule) (pid today : Nat)
    (restDays : List String)
    (h : rows.countP (fun s => s.is_active) ≤ 1) :
    (generate rows pid today restDays).countP (fun s => s.is_active) ≤ 1 := by
  unfold generate
  by_cases hany : (rows.any fun s => s.is_active) = true
  · rw [if_pos hany, countP_updateFirstActive]
    exact h
  · rw [if_neg hany]
    have hz : rows.countP (fun s => s.is_active) = 0 := by
      rw [List.countP_eq_zero]
      intro s hs
      have := List.any_eq_false.mp (by simpa using hany) s hs
      simp [this]
    rw [List.countP_append, hz]
    simp [List.countP_cons]

/-- C5. `generate` against an active schedule updates that schedule's
program set in place (`addProgram`, which is idempotent for an already
present id) and adds no schedule row; starting from at most one active
schedule, any sequence of `generate` calls leaves at most one active
schedule. -/
theorem generate_single_active (rows : List Schedule) (pid today : Nat)
    (restDays : List String) :
    (∀ s, activeOf rows = some s →
      activeOf (generate rows pid today restDays) = some (addProgram s pid)
      ∧ (generate rows pid today restDays).length = rows.length)
    ∧ (∀ s : Schedule, pid ∈ (addProgram s pid).programs
        ∧ (pid ∈ s.programs → addProgram s pid = s))
    ∧ (∀ calls : List (Nat × Nat × List String),
        rows.countP (fun s => s.is_active) ≤ 1 →
        (calls.foldl (fun acc c => generate acc c.1 c.2.1 c.2.2) rows).countP
            (fun s => s.is_active) ≤ 1) := by
  refine ⟨?_, ?_, ?_⟩
  · intro s hs
    have hany : (rows.any fun x => x.is_active) = true := by
      rw [List.any_eq_true]
      refine ⟨s, List.mem_of_find?_eq_some hs, List.find?_some hs⟩
    unfold generate
    rw [if_pos hany]
    exact ⟨activeOf_updateFirstActive rows pid s hs, length_updateFirstActive rows pid⟩
  · intro s
    constructor
    · unfold addProgram
      by_cases hmem : pid ∈ s.programs
      · rw [if_pos hmem]; exact hmem
      · rw [if_neg hmem]; simp
    · intro hmem
      unfold addProgram
      rw [if_pos hmem]
  · intro calls
    induction calls generalizing rows with
    | nil => intro h; exact h
    | cons c t ih =>
      intro h
      exact ih _ (countP_generate_le rows c.1 c.2.1 c.2.2 h)

/-- The active schedule used by the schedule-machine witnesses. -/
def exSchedule : Schedule :=
  { programs := [1], start_date := 100, rest_days := ["sunday"], is_active := true }

def exRows : List Schedule := [exSchedule]

/-- Witness for C5 at a one-row store. -/
theorem generate_single_active_witness :
    activeOf (generate exRows 2 100 ["sunday"]) = some (addProgram exSchedule 2)
    ∧ (generate exRows 2 100 ["sunday"]).length = exRows.length
    ∧ ([(3, 101, ["sunday"]), (3, 102, ["sunday"])].foldl
        (fun acc c => generate acc c.1 c.2.1 c.2.2) exRows).countP
          (fun s => s.is_active) ≤ 1 := by
  have h := generate_single_active exRows 2 100 ["sunday"]
  have h1 := h.1 exSchedule rfl
  exact ⟨h1.1, h1.2,
    (generate_single_active exRows 3 101 ["sunday"]).2.2
      [(3, 101, ["sunday"]), (3, 102, ["sunday"])] (by decide)⟩

theorem removeProgram_of_no_active (rows : List Schedule) (pid : Nat)
    (h : activeOf rows = none) : removeProgram rows pid = rows := by
  induction rows with
  | nil => rfl
  | cons r t ih =>
    unfold activeOf at h
    rw [List.find?_eq_none] at h
    have hr : r.is_active = false := by
      have := h r (List.mem_cons_self r t)
      simpa using this
    simp only [removeProgram]
    rw [if_neg (by simp [hr])]
    have ht : activeOf t = none := by
      unfold activeOf
      rw [List.find?_eq_none]
      intro x hx
      exact h x (List.mem_cons_of_mem r hx)
    rw [ih ht]

/-- C6. `removeProgram` is idempotent: with at most one active schedule,
a second removal of the same id changes nothing; removing an id the
active schedule does not reference (its set staying non-empty) is a
no-op, as is removal with no active schedule. -/
theorem countP_cons_active {r : Schedule} {t : List Schedule}
    (hr : r.is_active = true) :
    (r :: t).countP (fun s => s.is_active) =
      t.countP (fun s => s.is_active) + 1 := by
  rw [List.countP_cons]
  simp [hr]

theorem countP_cons_inactive {r : Schedule} {t : List Schedule}
    (hr : ¬ r.is_active = true) :
    (r :: t).countP (fun s => s.is_active) = t.countP (fun s => s.is_active) := by
  have hf : r.is_active = false := by
    cases hb : r.is_active
    · rfl
    · exact absurd hb hr
  rw [List.countP_cons]
  simp [hf]

theorem removeProgram_cons_active (r : Schedule) (t : List Schedule) (pid : Nat)
    (hr : r.is_active = true) :
    removeProgram (r :: t) pid =
      match removeFromSchedule r pid with
      | none => t
      | some s2 => s2 :: t := by
  simp only [removeProgram]
  rw [if_pos hr]

theorem removeProgram_cons_inactive (r : Schedule) (t : List Schedule) (pid : Nat)
    (hr : ¬ r.is_active = true) :
    removeProgram (r :: t) pid = r :: removeProgram t pid := by
  simp only [removeProgram]
  rw [if_neg hr]

/-- Removing an id a schedule does not reference, when its program set is
non-empty, returns the schedule unchanged. -/
theorem removeFromSchedule_no_pid (s : Schedule) (pid : Nat)
    (hnot : pid ∉ s.programs) (hne : s.programs ≠ []) :
    removeFromSchedule s pid = some s := by
  unfold removeFromSchedule
  dsimp only
  have hfil : (s.programs.filter fun q => q ≠ pid) = s.programs := by
    apply List.filter_eq_self.mpr
    intro a ha
    have hne2 : a ≠ pid := fun hq => hnot (hq ▸ ha)
    simp [hne2]
  rw [hfil]
  have hemp : s.programs.isEmpty = false := by
    cases hp : s.programs with
    | nil => exact absurd hp hne
    | cons a l => rfl
  rw [if_neg (by simp [hemp])]

/-- C6. `removeProgram` is idempotent: with at most one active schedule,
a second removal of the same id changes nothing; removing an id the
active schedule does not reference (its set staying non-empty) is a
no-op, as is removal with no active schedule. -/
theorem removeProgram_idempotent (rows : List Schedule) (pid : Nat) :
    (rows.countP (fun s => s.is_active) ≤ 1 →
      removeProgram (removeProgram rows pid) pid = removeProgram rows pid)
    ∧ (∀ s, activeOf rows = some s → pid ∉ s.programs → s.programs ≠ [] →
        removeProgram rows pid = rows)
    ∧ (activeOf rows = none → removeProgram rows pid = rows) := by
  refine ⟨?_, ?_, fun h => removeProgram_of_no_active rows pid h⟩
  · induction rows with
    | nil => intro _; rfl
    | cons r t ih =>
      intro hcount
      by_cases hr : r.is_active = true
      · have ht0 : t.countP (fun s => s.is_active) = 0 := by
          rw [countP_cons_active hr] at hcount
          omega
        have htnone : activeOf t = none := by
          unfold activeOf
          rw [List.find?_eq_none]
          intro x hx
          have := List.countP_eq_zero.mp ht0 x hx
          simpa using this
        by_cases hemp : ((r.programs.filter fun q => q ≠ pid).isEmpty) = true
        · have hrfs : removeFromSchedule r pid = none := by
            unfold removeFromSchedule
            dsimp only
            rw [if_pos hemp]
          rw [removeProgram_cons_active r t pid hr, hrfs]
          exact removeProgram_of_no_active t pid htnone
        · have hrfs : removeFromSchedule r pid =
              some { r with programs := r.programs.filter fun q => q ≠ pid } := by
            unfold removeFromSchedule
            dsimp only
            rw [if_neg hemp]
          have hnot2 : pid ∉ ({ r with
              programs := r.programs.filter fun q => q ≠ pid } : Schedule).programs := by
            intro hmem
            have := (List.mem_filter.mp hmem).2
            simp at this
          have hne2 : ({ r with
              programs := r.programs.filter fun q => q ≠ pid } : Schedule).programs ≠ [] := by
            intro h0
            apply hemp
            show (r.programs.filter fun q => q ≠ pid).isEmpty = true
            rw [show (r.programs.filter fun q => q ≠ pid) = [] from h0]
            rfl
          rw [removeProgram_cons_active r t pid hr, hrfs]
          rw [removeProgram_cons_active _ t pid
              (show ({ r with programs := r.programs.filter fun q => q ≠ pid } :
                Schedule).is_active = true from hr),
            removeFromSchedule_no_pid _ pid hnot2 hne2]
      · have htc : t.countP (fun s => s.is_active) ≤ 1 := by
          rw [countP_cons_inactive hr] at hcount
          exact hcount
        rw [removeProgram_cons_inactive r t pid hr,
          removeProgram_cons_inactive r _ pid hr, ih htc]
  · induction rows with
    | nil => intro s hs; simp [activeOf] at hs
    | cons r t ih =>
      intro s hs hnot hne
      by_cases hr : r.is_active = true
      · have hrs : r = s := by
          unfold activeOf at hs
          rw [List.find?_cons_of_pos _ hr] at hs
          exact Option.some.inj hs
        subst hrs
        rw [removeProgram_cons_active r t pid hr,
          removeFromSchedule_no_pid r pid hnot hne]
      · have ht : activeOf t = some s := by
          unfold activeOf at hs ⊢
          rwa [List.find?_cons_of_neg _ (by simpa using hr)] at hs
        rw [removeProgram_cons_inactive r t pid hr, ih s ht hnot hne]

/-- A two-program active schedule used by the removal witness. -/
def exSchedule2 : Schedule :=
  { programs := [1, 2], start_date := 100, rest_days := ["sunday"], is_active := true }

def exRows2 : List Schedule := [exSchedule2]

/-- Witness for C6 at a one-row store holding programs 1 and 2: removing
the unreferenced id 5 twice is the same as removing it once, and is a
no-op. -/
theorem removeProgram_idempotent_witness :
    removeProgram (removeProgram exRows2 5) 5 = removeProgram exRows2 5
    ∧ removeProgram exRows2 5 = exRows2 := by
  have h := removeProgram_idempotent exRows2 5
  exact ⟨h.1 (by decide), h.2.1 exSchedule2 rfl (by decide) (by decide)⟩

/-! ## Calendar expansion (backend, modelled from the spec §4.2 steps 1–6) -/

/-- Modelled from the spec: lowercase weekday names as used in
`rest_days`; day 0 of the epoch is taken to be a Monday. -/
def WEEKDAY_NAMES : List String :=
  ["monday", "tuesday", "wednesday", "thursday", "friday", "saturday", "sunday"]

/-- The weekday name of a day count. -/
def weekdayName (date : Nat) : String :=
  WEEKDAY_NAMES.getD (date % 7) ""

/-- Modelled from the spec (§4.2 step 4): the section of a program
authored for a weekday — `format` equals the day name, not a rest day,
and at least one exercise. -/
def sectionForDay (p : Program) (dayName : String) : Option ProgramSection :=
  p.sections.find? fun s =>
    s.format == dayName && !s.is_rest_day && decide (0 < s.exercises.length)

/-- Modelled from the spec (§4.2 step 4): the event entry a program
contributes for a weekday, if any. -/
def entryFor (dayName : String) (p : Program) : Option SectionEntry :=
  (sectionForDay p dayName).map fun s =>
    { id := s.id, program_id := p.id, program_name := p.name,
      exercise_count := s.exercises.length, focus := p.focus }

/-- Modelled from the spec (§4.2 steps 3–5): the calendar event for one
date.  A date whose weekday is in `restDays` is a rest event with no
sections; otherwise the entries of all scheduled programs are aggregated,
an empty aggregation falling back to a rest event. -/
def eventFor (restDays : List String) (programs : List Program) (date : Nat) :
    CalendarEvent :=
  let dayName := weekdayName date
  if dayName ∈ restDays then
    { date := date, day := dayName, sections := [],
      section_type := "rest", exercise_count := 0 }
  else
    let entries := programs.filterMap (entryFor dayName)
    if entries.isEmpty then
      { date := date, day := dayName, sections := [],
        section_type := "rest", exercise_count := 0 }
    else
      { date := date, day := dayName, sections := entries,
        section_type := "workout",
        exercise_count := (entries.map fun en => en.exercise_count).sum }

/-- Modelled from the spec (§4.2 steps 1–2, 6): the 28-day expansion,
one event per day offset from the start date, in date order. -/
def calendarEvents (startDate : Nat) (restDays : List String)
    (programs : List Program) : List CalendarEvent :=
  (List.range 28).map fun d => eventFor restDays programs (startDate + d)

/-- The response of `GET /api/schedule/active/` when a schedule is
active (`ScheduleResponse` interface of the schedule page). -/
structure ScheduleView where
  schedule : Schedule
  calendar_events : List CalendarEvent
deriving DecidableEq, Repr

/-- Modelled from the spec: `activeSchedule(user)` (§4.2); the Django
view is not in the source tree.  Expands the user's active schedule, if
any, over the scheduled programs resolved against the catalog. -/
def activeSchedule (rows : List Schedule) (catalog : List Program) :
    Option ScheduleView :=
  (activeOf rows).map fun s =>
    { schedule := s,
      calendar_events := calendarEvents s.start_date s.rest_days
        (catalog.filter fun p => p.id ∈ s.programs) }

theorem eventFor_date (restDays : List String) (programs : List Program)
    (date : Nat) : (eventFor restDays programs date).date = date := by
  simp only [eventFor]
  split
  · rfl
  · split
    · rfl
    · rfl

theorem eventFor_rest_sections (restDays : List String) (programs : List Program)
    (date : Nat) (h : weekdayName date ∈ restDays) :
    (eventFor restDays programs date).sections = [] := by
  simp only [eventFor]
  rw [if_pos h]

/-- C2. The calendar of an active schedule has exactly 28 events whose
dates are the 28 consecutive days starting at the schedule's start date
(so the first date is the start date and consecutive events are one day
apart). -/
theorem activeSchedule_horizon (rows : List Schedule) (catalog : List Program)
    (view : ScheduleView) (hview : activeSchedule rows catalog = some view) :
    view.calendar_events.length = 28
    ∧ ∀ i, i < 28 →
        (view.calendar_events.map fun e => e.date)[i]? =
          some (view.schedule.start_date + i) := by
  obtain ⟨s, hs, hv⟩ := Option.map_eq_some'.mp hview
  subst hv
  constructor
  · simp [calendarEvents]
  · intro i hi
    simp only [calendarEvents, List.map_map, List.getElem?_map,
      List.getElem?_range hi, Option.map_some', Function.comp]
    rw [eventFor_date]

/-- Witness for C2: the one-row store with start date 100 expands to a
28-event calendar. -/
theorem activeSchedule_horizon_witness :
    ((activeSchedule exRows exCatalog).map fun v => v.calendar_events.length)
      = some 28
    ∧ ((activeSchedule exRows exCatalog).map fun v =>
        (v.calendar_events.map fun e => e.date)[0]?) = some (some 100) := by
  have hsome : (activeSchedule exRows exCatalog).isSome = true := rfl
  obtain ⟨v, hv⟩ := Option.isSome_iff_exists.mp hsome
  have h := activeSchedule_horizon exRows exCatalog v hv
  rw [hv, Option.map_some', Option.map_some']
  refine ⟨congrArg some h.1, congrArg some ?_⟩
  have h0 := h.2 0 (by omega)
  rw [h0]
  have : v.schedule.start_date = 100 := by
    have : activeOf exRows = some exSchedule := rfl
    have hv2 : activeSchedule exRows exCatalog = some v := hv
    rw [activeSchedule, this, Option.map_some'] at hv2
    have := Option.some.inj hv2
    rw [← this]
    rfl
  rw [this]

/-- C3. Every date of the expansion whose weekday name is among the
rest-day names supplied at generation time yields an event with no
workout sections, whatever the scheduled programs contain. -/
theorem restDay_precedence (start : Nat) (restDays : List String)
    (programs : List Program) (i : Nat) (hi : i < 28)
    (hrest : weekdayName (start + i) ∈ restDays) :
    ∃ e, (calendarEvents start restDays programs)[i]? = some e
      ∧ e.sections = [] := by
  refine ⟨eventFor restDays programs (start + i), ?_, ?_⟩
  · simp [calendarEvents, List.getElem?_map, List.getElem?_range hi]
  · exact eventFor_rest_sections restDays programs (start + i) hrest

/-- Witness for C3: with the epoch starting on a Monday, day 6 is a
Sunday, and the sample catalog's expansion shows no sections there. -/
theorem restDay_precedence_witness :
    ((calendarEvents 0 ["sunday"] exCatalog)[6]?.map fun e => e.sections)
      = some [] := by
  obtain ⟨e, he, hs⟩ :=
    restDay_precedence 0 ["sunday"] exCatalog 6 (by omega) (by decide)
  rw [he, Option.map_some', hs]

end Fitiva
